import Mathlib

/-!
Verification of the llama-stack-showroom demo repository.

The repository ships `scripts/rag-demo.py`, a thin HTTP client around an
inference service.  The design spec additionally describes a client-side
cosine-similarity top-k ranker (`rank`) from a second script variant that is
not part of the shipped sources; that component is modelled here directly from
the spec's words.  Scores are represented exactly: a score keeps the rational
dot product together with the product of the squared Euclidean norms, and the
real-valued cosine similarity is recovered as `Score.val`.  The decidable
comparison `Score.le` is proved equivalent to comparing the real values.
-/

/-- Modelled from the spec: dot product of two vectors, used by the
client-side similarity ranker that is absent from the shipped sources. -/
def dot (v w : List ℚ) : ℚ := (List.zipWith (· * ·) v w).sum

/-- Modelled from the spec: squared Euclidean norm of a vector (the Euclidean
norm itself is `Real.sqrt` of this). -/
def normSq (v : List ℚ) : ℚ := dot v v

/-- Exact representation of a cosine-similarity score: the dot product and the
product of the squared Euclidean norms of the two vectors.  The real score is
`dot / sqrt prodNormSq`. -/
structure Score where
  dot : ℚ
  prodNormSq : ℚ
deriving DecidableEq, Repr

/-- Decidable comparison of two scores, equivalent (for scores arising from
actual vectors) to comparing the real cosine values `dot / sqrt prodNormSq`. -/
def Score.le (s t : Score) : Prop :=
  (0 < s.dot ∧ 0 < t.dot ∧ s.dot ^ 2 * t.prodNormSq ≤ t.dot ^ 2 * s.prodNormSq)
  ∨ (s.dot = 0 ∧ 0 ≤ t.dot)
  ∨ (s.dot < 0 ∧ (0 ≤ t.dot ∨ t.dot ^ 2 * s.prodNormSq ≤ s.dot ^ 2 * t.prodNormSq))

instance : DecidableRel Score.le := fun s t => by unfold Score.le; infer_instance

/-- The real value of a score: dot product divided by the product of the
Euclidean norms (as `sqrt` of the stored product of squared norms). -/
noncomputable def Score.val (s : Score) : ℝ :=
  (s.dot : ℝ) / Real.sqrt (s.prodNormSq : ℝ)

/-- Modelled from the spec: the exact score of a candidate vector `v` against
the query `q`: dot product over the product of Euclidean norms. -/
def mkScore (q v : List ℚ) : Score := ⟨dot q v, normSq q * normSq v⟩

/-- Sorting relation on (candidate, score) pairs: descending by score. -/
def rankRel {α : Type} (x y : α × Score) : Prop := Score.le y.2 x.2

instance {α : Type} : DecidableRel (@rankRel α) :=
  fun x y => inferInstanceAs (Decidable (Score.le y.2 x.2))

instance {α : Type} : IsTotal (α × Score) rankRel := ⟨by
  intro x y
  suffices h : ∀ s t : Score, Score.le s t ∨ Score.le t s from (h x.2 y.2).symm
  intro s t
  rcases lt_trichotomy s.dot 0 with hs | hs | hs <;>
    rcases lt_trichotomy t.dot 0 with ht | ht | ht
  · rcases le_total (t.dot ^ 2 * s.prodNormSq) (s.dot ^ 2 * t.prodNormSq) with h | h
    · exact Or.inl (Or.inr (Or.inr ⟨hs, Or.inr h⟩))
    · exact Or.inr (Or.inr (Or.inr ⟨ht, Or.inr h⟩))
  · exact Or.inl (Or.inr (Or.inr ⟨hs, Or.inl ht.ge⟩))
  · exact Or.inl (Or.inr (Or.inr ⟨hs, Or.inl ht.le⟩))
  · exact Or.inr (Or.inr (Or.inr ⟨ht, Or.inl hs.ge⟩))
  · exact Or.inl (Or.inr (Or.inl ⟨hs, ht.ge⟩))
  · exact Or.inl (Or.inr (Or.inl ⟨hs, ht.le⟩))
  · exact Or.inr (Or.inr (Or.inr ⟨ht, Or.inl hs.le⟩))
  · exact Or.inr (Or.inr (Or.inl ⟨ht, hs.le⟩))
  · rcases le_total (s.dot ^ 2 * t.prodNormSq) (t.dot ^ 2 * s.prodNormSq) with h | h
    · exact Or.inl (Or.inl ⟨hs, ht, h⟩)
    · exact Or.inr (Or.inl ⟨ht, hs, h⟩)⟩

instance {α : Type} : IsTrans (α × Score) rankRel := ⟨by
  intro x y z hxy hyz
  suffices h : ∀ s t u : Score, Score.le s t → Score.le t u → Score.le s u from
    h z.2 y.2 x.2 hyz hxy
  intro s t u hst htu
  rcases hst with ⟨hs, ht, h1⟩ | ⟨hs, ht⟩ | ⟨hs, hd⟩
  · rcases htu with ⟨ht', hu, h2⟩ | ⟨ht0, _⟩ | ⟨htn, _⟩
    · refine Or.inl ⟨hs, hu, ?_⟩
      have h3 := mul_le_mul_of_nonneg_left h2 (sq_nonneg s.dot)
      have h4 := mul_le_mul_of_nonneg_left h1 (sq_nonneg u.dot)
      have ht2 : 0 < t.dot ^ 2 := pow_pos ht 2
      nlinarith [h3, h4, ht2]
    · exact absurd ht0 ht.ne'
    · exact absurd htn (not_lt.mpr ht.le)
  · rcases htu with ⟨ht', hu, _⟩ | ⟨ht0, hu0⟩ | ⟨htn, _⟩
    · exact Or.inr (Or.inl ⟨hs, hu.le⟩)
    · exact Or.inr (Or.inl ⟨hs, hu0⟩)
    · exact absurd htn (not_lt.mpr ht)
  · rcases htu with ⟨ht', hu, _⟩ | ⟨ht0, hu0⟩ | ⟨htn, hd2⟩
    · exact Or.inr (Or.inr ⟨hs, Or.inl hu.le⟩)
    · exact Or.inr (Or.inr ⟨hs, Or.inl hu0⟩)
    · rcases hd with hge | h1
      · exact absurd htn (not_lt.mpr hge)
      · rcases hd2 with hu0 | h2
        · exact Or.inr (Or.inr ⟨hs, Or.inl hu0⟩)
        · refine Or.inr (Or.inr ⟨hs, Or.inr ?_⟩)
          have h3 := mul_le_mul_of_nonneg_left h1 (sq_nonneg u.dot)
          have h4 := mul_le_mul_of_nonneg_left h2 (sq_nonneg s.dot)
          have ht2 : 0 < t.dot ^ 2 := pow_two_pos_of_ne_zero htn.ne
          nlinarith [h3, h4, ht2]⟩

/-- Modelled from the spec: the errors of the similarity ranker. -/
inductive DomainError where
  | dimensionMismatch
  | zeroMagnitude
deriving DecidableEq, Repr

/-- Modelled from the spec: the list of (candidate, score) pairs in input
order, candidates and candidate vectors corresponding by index. -/
def scored {α : Type} (q : List ℚ) (cs : List α) (cvs : List (List ℚ)) :
    List (α × Score) :=
  List.zipWith (fun c v => (c, mkScore q v)) cs cvs

/-- Modelled from the spec: the client-side similarity ranker absent from the
shipped sources.  Checks dimensions before any arithmetic, then zero-magnitude
candidate vectors, then scores every candidate by cosine similarity, sorts by
score descending with a stable sort and truncates to `k` entries. -/
def rank {α : Type} (q : List ℚ) (cvs : List (List ℚ)) (cs : List α)
    (k : ℕ) : Except DomainError (List (α × Score)) :=
  if ∃ v ∈ cvs, v.length ≠ q.length then .error .dimensionMismatch
  else if ∃ v ∈ cvs, normSq v = 0 then .error .zeroMagnitude
  else .ok (((scored q cs cvs).insertionSort rankRel).take k)

/-- Well-formedness of a score arising from actual vectors: the stored norm
product is positive, or degenerate with a zero dot product (zero query). -/
def Score.WF (s : Score) : Prop :=
  0 < s.prodNormSq ∨ (s.prodNormSq = 0 ∧ s.dot = 0)

/-- A role-tagged chat message, as built by `chat_completion` in
`scripts/rag-demo.py`. -/
structure ChatMessage where
  role : String
  content : String
deriving DecidableEq, Repr

/-- The system-prompt wrapper around retrieved context used by
`chat_completion` in `scripts/rag-demo.py`. -/
def contextPrompt (context : String) : String :=
  "Use the following context to answer the question:\n\n" ++ context

/-- The message list built by `chat_completion` in `scripts/rag-demo.py`: a
system message wrapping the context when the context string is non-empty
(Python truthiness of `if context:`), then the user message with the query. -/
def chatMessages (query context : String) : List ChatMessage :=
  (if context ≠ "" then [⟨"system", contextPrompt context⟩] else [])
    ++ [⟨"user", query⟩]

/-- A model entry of the `/v1/models` response, with optional fields as the
code reads them via `dict.get` in `list_models` of `scripts/rag-demo.py`. -/
structure ModelEntry where
  id : Option String
  modelType : Option String
deriving DecidableEq, Repr

/-- The model id reported by `list_models` in `scripts/rag-demo.py`:
`model.get('id', 'unknown')`. -/
def modelReportedId (m : ModelEntry) : String := m.id.getD "unknown"

/-- Chunk metadata of a vector-store query result, optional `source` field as
read by `main` in `scripts/rag-demo.py`. -/
structure ChunkMeta where
  source : Option String
deriving DecidableEq, Repr

/-- A query-result chunk with the optional fields `main` in
`scripts/rag-demo.py` reads via `dict.get`. -/
structure Chunk where
  chunk_metadata : Option ChunkMeta
  score : Option ℚ
  content : Option String
deriving DecidableEq, Repr

/-- The source reported for a chunk by `main` in `scripts/rag-demo.py`:
`chunk.get('chunk_metadata', dict()).get('source', 'unknown')`. -/
def chunkReportedSource (c : Chunk) : String :=
  ((c.chunk_metadata.getD ⟨none⟩).source).getD "unknown"

/-- The score reported for a chunk by `main` in `scripts/rag-demo.py`:
`chunk.get('score', 0.0)`. -/
def chunkReportedScore (c : Chunk) : ℚ := c.score.getD 0

/-- The observable behaviour of one HTTP call made by a method of
`LlamaStackDemo`: either some exception is raised during the request, parsing
or response handling (`exn`), or a response with a status code and a parsed
body arrives.  A body of `none` models a response whose handling raises
(malformed JSON, missing required key, wrong shape). -/
inductive Outcome (β : Type) where
  | exn
  | resp (status : ℕ) (body : Option β)

/-- `list_models` of `scripts/rag-demo.py` as a function of the call outcome:
`raise_for_status` raises on status ≥ 400 and every raise is caught, yielding
the empty list; otherwise the `data` field (defaulted to the empty list) is
returned. -/
def list_models (o : Outcome (List ModelEntry)) : List ModelEntry :=
  match o with
  | .exn => []
  | .resp status body =>
    if 400 ≤ status then []
    else match body with
      | none => []
      | some ms => ms

/-- `generate_embeddings` of `scripts/rag-demo.py` as a function of the call
outcome: on status 200 the embeddings are extracted (a raise while extracting
is caught, yielding the empty list); any other status yields the empty list. -/
def generate_embeddings (o : Outcome (List (List ℚ))) : List (List ℚ) :=
  match o with
  | .exn => []
  | .resp status body =>
    if status = 200 then
      match body with
      | none => []
      | some es => es
    else []

/-- `create_vector_store` of `scripts/rag-demo.py` as a function of the call
outcome: on status 200 or 201 the `id` field is returned (possibly absent,
hence `Option` inside the body); otherwise `None`. -/
def create_vector_store (o : Outcome (Option String)) : Option String :=
  match o with
  | .exn => none
  | .resp status body =>
    if status = 200 ∨ status = 201 then
      match body with
      | none => none
      | some id? => id?
    else none

/-- `insert_vectors` of `scripts/rag-demo.py` as a function of the call
outcome: `exn` also covers a raise while building the chunk payload, since
the whole body of the method sits inside the `try` block. -/
def insert_vectors (o : Outcome Unit) : Bool :=
  match o with
  | .exn => false
  | .resp status _ => status = 200 ∨ status = 201

/-- `chat_completion` of `scripts/rag-demo.py` as a function of the call
outcome: on status 200 the answer text is extracted through defaulted `get`
chains (a raise, e.g. indexing an empty `choices` list, is caught and yields
the empty string); any other status yields the empty string. -/
def chat_completion (o : Outcome String) : String :=
  match o with
  | .exn => ""
  | .resp status body =>
    if status = 200 then
      match body with
      | none => ""
      | some answer => answer
    else ""

/-- Python truthiness of an optional string: present and non-empty. -/
def truthy (o : Option String) : Bool :=
  match o with
  | none => false
  | some s => !(s == "")

/-- Python `str.rstrip('/')`: remove all trailing slash characters. -/
def rstripSlash (s : String) : String :=
  ⟨(s.data.reverse.dropWhile (fun c => c == '/')).reverse⟩

/-- The `self.keycloak_url` computed by `LlamaStackDemo.__init__`:
`keycloak_url.rstrip('/') if keycloak_url else None`. -/
def initKeycloakUrl (keycloak_url : Option String) : Option String :=
  match keycloak_url with
  | none => none
  | some u => if u = "" then none else some (rstripSlash u)

/-- Whether `LlamaStackDemo.__init__` calls `authenticate`: all four of the
stored keycloak url, username, password and client secret are truthy. -/
def authAttempted (keycloak_url username password client_secret :
    Option String) : Bool :=
  truthy (initKeycloakUrl keycloak_url) && truthy username &&
    truthy password && truthy client_secret

/-- The session headers after `LlamaStackDemo.__init__` returns, as a
function of the authentication outcome (`tokenResp` is the `access_token`
field of a successful token response, `none` when the token request fails or
carries no token): `authenticate` is only called when `authAttempted`, and
only a successful call installs an `Authorization` header. -/
def initHeaders (keycloak_url username password client_secret :
    Option String) (tokenResp : Option String) : List (String × String) :=
  if authAttempted keycloak_url username password client_secret then
    match tokenResp with
    | some tok => [("Authorization", "Bearer " ++ tok)]
    | none => []
  else []

theorem dot_nil_left (w : List ℚ) : dot [] w = 0 := rfl

theorem dot_nil_right (v : List ℚ) : dot v [] = 0 := by
  cases v <;> rfl

theorem dot_cons (a b : ℚ) (v w : List ℚ) :
    dot (a :: v) (b :: w) = a * b + dot v w := by
  simp [dot]

theorem dot_self_nonneg (v : List ℚ) : 0 ≤ dot v v := by
  induction v with
  | nil => simp [dot]
  | cons a v ih =>
    rw [dot_cons]
    exact add_nonneg (mul_self_nonneg a) ih

theorem dot_eq_zero_of_self_zero :
    ∀ (v : List ℚ), dot v v = 0 → ∀ w, dot v w = 0
  | [], _, w => dot_nil_left w
  | a :: v, h, [] => dot_nil_right (a :: v)
  | a :: v, h, b :: w => by
    rw [dot_cons] at h
    have h1 : a * a = 0 := by
      have := dot_self_nonneg v
      have := mul_self_nonneg a
      linarith
    have h2 : dot v v = 0 := by linarith [mul_self_nonneg a]
    rw [dot_cons, mul_self_eq_zero.mp h1, zero_mul, zero_add]
    exact dot_eq_zero_of_self_zero v h2 w

theorem mkScore_wf (q v : List ℚ) (hv : normSq v ≠ 0) : (mkScore q v).WF := by
  have hvpos : 0 < normSq v := lt_of_le_of_ne (dot_self_nonneg v) (Ne.symm hv)
  rcases lt_or_eq_of_le (dot_self_nonneg q) with hq | hq
  · exact Or.inl (mul_pos hq hvpos)
  · refine Or.inr ⟨?_, ?_⟩
    · show normSq q * normSq v = 0
      rw [normSq, ← hq, zero_mul]
    · exact dot_eq_zero_of_self_zero q hq.symm v

theorem scored_wf {α : Type} (q : List ℚ) :
    ∀ (cs : List α) (cvs : List (List ℚ)), (∀ v ∈ cvs, normSq v ≠ 0) →
      ∀ p ∈ scored q cs cvs, p.2.WF
  | [], _, _, p, hp => by simp [scored] at hp
  | _ :: _, [], _, p, hp => by simp [scored] at hp
  | c :: cs, v :: cvs, hz, p, hp => by
    rw [scored, List.zipWith_cons_cons] at hp
    rcases List.mem_cons.mp hp with rfl | hp'
    · exact mkScore_wf q v (hz v (List.mem_cons_self v cvs))
    · exact scored_wf q cs cvs (fun u hu => hz u (List.mem_cons_of_mem v hu)) p hp'

theorem div_sqrt_le_char {a b P Q : ℝ} (hP : 0 < P) (hQ : 0 < Q) :
    a / Real.sqrt P ≤ b / Real.sqrt Q ↔
      ((0 < a ∧ 0 < b ∧ a ^ 2 * Q ≤ b ^ 2 * P)
        ∨ (a = 0 ∧ 0 ≤ b)
        ∨ (a < 0 ∧ (0 ≤ b ∨ b ^ 2 * P ≤ a ^ 2 * Q))) := by
  have sP : 0 < Real.sqrt P := Real.sqrt_pos.mpr hP
  have sQ : 0 < Real.sqrt Q := Real.sqrt_pos.mpr hQ
  have hP2 : Real.sqrt P ^ 2 = P := Real.sq_sqrt hP.le
  have hQ2 : Real.sqrt Q ^ 2 = Q := Real.sq_sqrt hQ.le
  rw [div_le_div_iff₀ sP sQ]
  constructor
  · intro h
    rcases lt_trichotomy a 0 with ha | ha | ha
    · refine Or.inr (Or.inr ⟨ha, ?_⟩)
      rcases le_or_lt 0 b with hb | hb
      · exact Or.inl hb
      · refine Or.inr ?_
        nlinarith [h, sP, sQ, hP2, hQ2,
          mul_neg_of_neg_of_pos ha sQ, mul_neg_of_neg_of_pos hb sP]
    · refine Or.inr (Or.inl ⟨ha, ?_⟩)
      subst ha
      nlinarith [h, sP]
    · have hb : 0 < b := by nlinarith [h, sQ, sP, mul_pos ha sQ]
      refine Or.inl ⟨ha, hb, ?_⟩
      nlinarith [h, hP2, hQ2, mul_pos ha sQ, mul_pos hb sP]
  · rintro (⟨ha, hb, hle⟩ | ⟨ha, hb⟩ | ⟨ha, hd⟩)
    · have k1 : a * Real.sqrt Q = Real.sqrt (a ^ 2 * Q) := by
        rw [Real.sqrt_mul (sq_nonneg a), Real.sqrt_sq ha.le]
      have k2 : b * Real.sqrt P = Real.sqrt (b ^ 2 * P) := by
        rw [Real.sqrt_mul (sq_nonneg b), Real.sqrt_sq hb.le]
      rw [k1, k2]
      exact Real.sqrt_le_sqrt hle
    · subst ha
      rw [zero_mul]
      exact mul_nonneg hb sP.le
    · rcases hd with hb | hle
      · have h1 : a * Real.sqrt Q ≤ 0 :=
          mul_nonpos_of_nonpos_of_nonneg ha.le sQ.le
        have h2 : 0 ≤ b * Real.sqrt P := mul_nonneg hb sP.le
        linarith
      · rcases le_or_lt 0 b with hb | hb
        · have h1 : a * Real.sqrt Q ≤ 0 :=
            mul_nonpos_of_nonpos_of_nonneg ha.le sQ.le
          have h2 : 0 ≤ b * Real.sqrt P := mul_nonneg hb sP.le
          linarith
        · have k1 : -(a * Real.sqrt Q) = Real.sqrt (a ^ 2 * Q) := by
            rw [Real.sqrt_mul (sq_nonneg a), Real.sqrt_sq_eq_abs,
              abs_of_neg ha]
            ring
          have k2 : -(b * Real.sqrt P) = Real.sqrt (b ^ 2 * P) := by
            rw [Real.sqrt_mul (sq_nonneg b), Real.sqrt_sq_eq_abs,
              abs_of_neg hb]
            ring
          have := Real.sqrt_le_sqrt hle
          rw [← k2, ← k1] at this
          linarith

theorem Score.le_iff_val {s t : Score} (hs : s.WF) (ht : t.WF) :
    s.le t ↔ s.val ≤ t.val := by
  rcases hs with hs | ⟨hs0, hsd⟩ <;> rcases ht with ht | ⟨ht0, htd⟩
  · have hP : (0 : ℝ) < (s.prodNormSq : ℝ) := by exact_mod_cast hs
    have hQ : (0 : ℝ) < (t.prodNormSq : ℝ) := by exact_mod_cast ht
    rw [Score.val, Score.val, div_sqrt_le_char hP hQ]
    unfold Score.le
    constructor
    · intro h
      exact_mod_cast h
    · intro h
      exact_mod_cast h
  · have hP : (0 : ℝ) < (s.prodNormSq : ℝ) := by exact_mod_cast hs
    have sP : 0 < Real.sqrt (s.prodNormSq : ℝ) := Real.sqrt_pos.mpr hP
    unfold Score.le Score.val
    rw [ht0, htd]
    simp only [Rat.cast_zero, Real.sqrt_zero, zero_div, lt_self_iff_false,
      le_refl, false_and, and_true, true_or, and_false, false_or]
    rw [div_le_iff₀ sP, zero_mul]
    constructor
    · rintro (h | h)
      · exact_mod_cast h.le
      · exact_mod_cast h.le
    · intro h
      have h' : s.dot ≤ 0 := by exact_mod_cast h
      rcases lt_or_eq_of_le h' with h'' | h''
      · exact Or.inr h''
      · exact Or.inl h''
  · have hQ : (0 : ℝ) < (t.prodNormSq : ℝ) := by exact_mod_cast ht
    have sQ : 0 < Real.sqrt (t.prodNormSq : ℝ) := Real.sqrt_pos.mpr hQ
    unfold Score.le Score.val
    rw [hs0, hsd]
    simp only [Rat.cast_zero, Real.sqrt_zero, zero_div, lt_self_iff_false,
      false_and, false_or, or_false, lt_irrefl, true_and]
    rw [le_div_iff₀ sQ, zero_mul]
    constructor
    · intro h
      exact_mod_cast h
    · intro h
      exact_mod_cast h
  · unfold Score.le Score.val
    rw [hs0, hsd, ht0, htd]
    norm_num

theorem filter_orderedInsert_eq {α : Type} (r : α → α → Prop) [DecidableRel r]
    (p : α → Bool) (a : α) (hp : ∀ x y, p x = true → p y = true → r x y) :
    ∀ l, (List.orderedInsert r a l).filter p = ((a :: l).filter p)
  | [] => rfl
  | b :: l => by
    rw [List.orderedInsert]
    by_cases hr : r a b
    · rw [if_pos hr]
    · rw [if_neg hr]
      have ih := filter_orderedInsert_eq r p a hp l
      by_cases hpa : p a <;> by_cases hpb : p b
      · exact absurd (hp a b hpa hpb) hr
      all_goals simp [List.filter_cons, hpa, hpb, ih]

theorem filter_insertionSort_eq {α : Type} (r : α → α → Prop) [DecidableRel r]
    (p : α → Bool) (hp : ∀ x y, p x = true → p y = true → r x y) :
    ∀ l, (List.insertionSort r l).filter p = l.filter p
  | [] => rfl
  | a :: l => by
    rw [List.insertionSort, filter_orderedInsert_eq r p a hp _]
    have ih := filter_insertionSort_eq r p hp l
    simp [List.filter_cons, ih]

theorem mkScore_val (q v : List ℚ) :
    (mkScore q v).val =
      (dot q v : ℝ) / (Real.sqrt (normSq q : ℝ) * Real.sqrt (normSq v : ℝ)) := by
  rw [mkScore, Score.val]
  have h : ((normSq q * normSq v : ℚ) : ℝ) = (normSq q : ℝ) * (normSq v : ℝ) := by
    push_cast
    ring
  rw [h, Real.sqrt_mul (by exact_mod_cast dot_self_nonneg q)]

/-- C1 (counterexample): the claim quantifies over all inputs whose dimensions
agree, are positive, and whose candidate lists have equal length, with k at
least 0; the input with query `[1]`, candidate vector `[0]` and k = 1 meets
all of those conditions, yet `rank` reports a `DomainError` (zero-magnitude
candidate) instead of returning a sequence of length min(1, 1) = 1. -/
theorem rank_length_min_counterexample :
    (([(0 : ℕ)].length = [[(0 : ℚ)]].length) ∧
      (∀ v ∈ [[(0 : ℚ)]], v.length = [(1 : ℚ)].length) ∧
      0 < [(1 : ℚ)].length) ∧
    ¬ ∃ out, rank [(1 : ℚ)] [[0]] [(0 : ℕ)] 1 = .ok out ∧
        out.length = min 1 [(0 : ℕ)].length := by
  have hrank : rank [(1 : ℚ)] [[0]] [(0 : ℕ)] 1 = .error .zeroMagnitude := by
    norm_num [rank, scored, mkScore, dot, normSq]
  refine ⟨⟨rfl, by simp, by simp⟩, ?_⟩
  rintro ⟨out, heq, -⟩
  rw [hrank] at heq
  exact Except.noConfusion heq

/-- C1 (amended): for every input with equal positive dimensionality of query
and candidate vectors, candidates and candidate vectors of equal length,
k at least 0, and no candidate vector of zero norm, `rank` returns a sequence
whose length is min(k, number of candidates). -/
theorem rank_length_min {α : Type} (q : List ℚ) (cvs : List (List ℚ))
    (cs : List α) (k : ℕ) (hlen : cs.length = cvs.length)
    (hdim : ∀ v ∈ cvs, v.length = q.length) (_hpos : 0 < q.length)
    (hz : ∀ v ∈ cvs, normSq v ≠ 0) :
    ∃ out, rank q cvs cs k = .ok out ∧ out.length = min k cs.length := by
  have h1 : ¬ ∃ v ∈ cvs, v.length ≠ q.length := by
    push_neg
    exact hdim
  have h2 : ¬ ∃ v ∈ cvs, normSq v = 0 := by
    push_neg
    exact hz
  refine ⟨_, by simp only [rank]; rw [if_neg h1, if_neg h2], ?_⟩
  rw [List.length_take, List.length_insertionSort, scored, List.length_zipWith,
    hlen, min_self]

theorem rank_length_min_witness :
    ([(10 : ℕ), 20].length = [[(1 : ℚ), 0], [0, 1]].length) ∧
    (∀ v ∈ [[(1 : ℚ), 0], [0, 1]], v.length = [(1 : ℚ), 0].length) ∧
    0 < [(1 : ℚ), 0].length ∧
    (∀ v ∈ [[(1 : ℚ), 0], [0, 1]], normSq v ≠ 0) ∧
    ∃ out, rank [(1 : ℚ), 0] [[1, 0], [0, 1]] [(10 : ℕ), 20] 1 = .ok out ∧
      out.length = min 1 [(10 : ℕ), 20].length := by
  refine ⟨rfl, by simp, by simp, by norm_num [normSq, dot], ?_⟩
  exact rank_length_min [(1 : ℚ), 0] [[1, 0], [0, 1]] [(10 : ℕ), 20] 1 rfl
    (by simp) (by simp) (by norm_num [normSq, dot])

/-- C2: whenever `rank` returns a sequence, the scores (as real cosine
values) are non-increasing along it, and the sort is stable: for every score
`s`, the sub-list of output entries whose score compares equal to `s` is an
initial segment of the corresponding sub-list of the scored input, i.e.
entries with equal scores keep their relative input order. -/
theorem rank_sorted_stable {α : Type} (q : List ℚ) (cvs : List (List ℚ))
    (cs : List α) (k : ℕ) (out : List (α × Score))
    (h : rank q cvs cs k = .ok out) :
    List.Pairwise (fun x y : α × Score => (y.2).val ≤ (x.2).val) out ∧
    ∀ s : Score, ∃ rest,
      (scored q cs cvs).filter
          (fun x => decide (Score.le x.2 s) && decide (Score.le s x.2)) =
        out.filter
          (fun x => decide (Score.le x.2 s) && decide (Score.le s x.2))
          ++ rest := by
  simp only [rank] at h
  split_ifs at h with h1 h2
  · have hout : out = ((scored q cs cvs).insertionSort rankRel).take k :=
      (Except.ok.inj h).symm
    subst hout
    push_neg at h2
    have hwf : ∀ p ∈ scored q cs cvs, p.2.WF := scored_wf q cs cvs h2
    have hsorted : List.Pairwise rankRel
        ((scored q cs cvs).insertionSort rankRel) :=
      List.sorted_insertionSort rankRel _
    have hsub : List.Sublist (((scored q cs cvs).insertionSort rankRel).take k)
        ((scored q cs cvs).insertionSort rankRel) := List.take_sublist k _
    have hpw := hsorted.sublist hsub
    constructor
    · refine hpw.imp_of_mem ?_
      intro a b ha hb hr
      have ha' : a ∈ scored q cs cvs :=
        (List.mem_insertionSort rankRel).mp (hsub.subset ha)
      have hb' : b ∈ scored q cs cvs :=
        (List.mem_insertionSort rankRel).mp (hsub.subset hb)
      exact (Score.le_iff_val (hwf b hb') (hwf a ha')).mp hr
    · intro s
      have hp : ∀ x y : α × Score,
          (decide (Score.le x.2 s) && decide (Score.le s x.2)) = true →
          (decide (Score.le y.2 s) && decide (Score.le s y.2)) = true →
          rankRel x y := by
        intro x y hx hy
        simp only [Bool.and_eq_true, decide_eq_true_eq] at hx hy
        have hxb : rankRel x (x.1, s) := hx.2
        have hby : rankRel (x.1, s) y := hy.1
        exact trans_of (@rankRel α) hxb hby
      have key := filter_insertionSort_eq rankRel
        (fun x => decide (Score.le x.2 s) && decide (Score.le s x.2)) hp
        (scored q cs cvs)
      refine ⟨(((scored q cs cvs).insertionSort rankRel).drop k).filter
        (fun x => decide (Score.le x.2 s) && decide (Score.le s x.2)), ?_⟩
      rw [← key, ← List.filter_append, List.take_append_drop]

theorem rank_sorted_stable_witness :
    List.Pairwise (fun x y : List ℚ × Score => (y.2).val ≤ (x.2).val)
      [([(1 : ℚ), 0], (⟨1, 1⟩ : Score)), ([0, 1], ⟨0, 1⟩)] ∧
    ∃ rest,
      (scored [(1 : ℚ), 0] [[(1 : ℚ), 0], [0, 1], [-1, 0]]
          [[1, 0], [0, 1], [-1, 0]]).filter
          (fun x => decide (Score.le x.2 ⟨1, 1⟩) && decide (Score.le ⟨1, 1⟩ x.2)) =
        ([([(1 : ℚ), 0], (⟨1, 1⟩ : Score)), ([0, 1], ⟨0, 1⟩)]).filter
          (fun x => decide (Score.le x.2 ⟨1, 1⟩) && decide (Score.le ⟨1, 1⟩ x.2))
          ++ rest := by
  have h := rank_sorted_stable [(1 : ℚ), 0] [[1, 0], [0, 1], [-1, 0]]
    [[(1 : ℚ), 0], [0, 1], [-1, 0]] 2
    [([(1 : ℚ), 0], (⟨1, 1⟩ : Score)), ([0, 1], ⟨0, 1⟩)]
    (by norm_num [rank, scored, mkScore, dot, normSq, List.insertionSort,
      List.orderedInsert, rankRel, Score.le])
  exact ⟨h.1, h.2 ⟨1, 1⟩⟩

/-- C3: when some candidate vector has zero Euclidean norm, `rank` fails with
a `DomainError` (rather than returning any result; the model has no NaN or
infinite scores, and no `.ok` value is produced at all).  When dimensions
also mismatch the reported error is `dimensionMismatch`, which is still a
`DomainError`. -/
theorem rank_zero_norm_error {α : Type} (q : List ℚ) (cvs : List (List ℚ))
    (cs : List α) (k : ℕ)
    (h : ∃ v ∈ cvs, Real.sqrt ((normSq v : ℚ) : ℝ) = 0) :
    ∃ e, rank q cvs cs k = .error e := by
  by_cases hd : ∃ v ∈ cvs, v.length ≠ q.length
  · exact ⟨.dimensionMismatch, by simp only [rank]; rw [if_pos hd]⟩
  · obtain ⟨v, hv, hs⟩ := h
    have hnn : (0 : ℝ) ≤ ((normSq v : ℚ) : ℝ) := by
      exact_mod_cast dot_self_nonneg v
    have h0 : normSq v = 0 := by
      have := (Real.sqrt_eq_zero hnn).mp hs
      exact_mod_cast this
    have hz : ∃ v ∈ cvs, normSq v = 0 := ⟨v, hv, h0⟩
    exact ⟨.zeroMagnitude, by simp only [rank]; rw [if_neg hd, if_pos hz]⟩

theorem rank_zero_norm_error_witness :
    (∃ v ∈ [[(0 : ℚ)]], Real.sqrt ((normSq v : ℚ) : ℝ) = 0) ∧
    ∃ e, rank [(1 : ℚ)] [[0]] [(0 : ℕ)] 1 = .error e := by
  have hv : (∃ v ∈ [[(0 : ℚ)]], Real.sqrt ((normSq v : ℚ) : ℝ) = 0) :=
    ⟨[0], by simp, by norm_num [normSq, dot]⟩
  exact ⟨hv, rank_zero_norm_error [(1 : ℚ)] [[0]] [(0 : ℕ)] 1 hv⟩

/-- C4: when the query's length differs from some candidate vector's length,
`rank` fails with `DomainError.dimensionMismatch`; the dimension check is the
first thing `rank` does, so this error is reported unconditionally, before
any similarity arithmetic and regardless of any other defect of the input
(see the witness, whose candidate vector is also zero). -/
theorem rank_dim_mismatch_error {α : Type} (q : List ℚ) (cvs : List (List ℚ))
    (cs : List α) (k : ℕ) (h : ∃ v ∈ cvs, v.length ≠ q.length) :
    rank q cvs cs k = .error .dimensionMismatch := by
  simp only [rank]
  rw [if_pos h]

theorem rank_dim_mismatch_error_witness :
    (∃ v ∈ [[(0 : ℚ)]], v.length ≠ [(1 : ℚ), 0].length) ∧
    rank [(1 : ℚ), 0] [[0]] [(0 : ℕ)] 1 = .error .dimensionMismatch := by
  have hv : ∃ v ∈ [[(0 : ℚ)]], v.length ≠ [(1 : ℚ), 0].length :=
    ⟨[0], by simp, by simp⟩
  exact ⟨hv, rank_dim_mismatch_error [(1 : ℚ), 0] [[0]] [(0 : ℕ)] 1 hv⟩

/-- C5: for every query vector and every k, `rank` on an empty candidate list
returns the empty sequence (an `.ok` value, hence no error). -/
theorem rank_empty_candidates {α : Type} (q : List ℚ) (k : ℕ) :
    rank q [] ([] : List α) k = .ok [] := by
  simp [rank, scored]

/-- C6: on query `[1, 0]`, candidates `[[1, 0], [0, 1], [-1, 0]]` and k = 2,
`rank` returns exactly `[([1, 0], s1), ([0, 1], s0)]` in that order, where
`s1` and `s0` are the scores with real cosine values 1 and 0; by
`mkScore_val`, every score's value is the dot product divided by the product
of the Euclidean norms. -/
theorem rank_example_end_to_end :
    rank [(1 : ℚ), 0] [[1, 0], [0, 1], [-1, 0]] [[(1 : ℚ), 0], [0, 1], [-1, 0]] 2 =
      .ok [([1, 0], mkScore [1, 0] [1, 0]), ([0, 1], mkScore [1, 0] [0, 1])] ∧
    (mkScore [(1 : ℚ), 0] [1, 0]).val = 1 ∧
    (mkScore [(1 : ℚ), 0] [0, 1]).val = 0 := by
  refine ⟨?_, ?_, ?_⟩
  · norm_num [rank, scored, mkScore, dot, normSq, List.insertionSort,
      List.orderedInsert, rankRel, Score.le]
  · norm_num [mkScore, Score.val, dot, normSq, Real.sqrt_one]
  · norm_num [mkScore, Score.val, dot, normSq, Real.sqrt_one]

/-- C7: for every query and context, the message list built by
`chat_completion` contains a system message carrying the (wrapped) context
exactly when the context is non-empty, no system message ever follows a user
message (so the system message, when present, precedes the user message), and
the last message is always the user message carrying the query. -/
theorem chat_completion_messages (query context : String) :
    ((∃ m ∈ chatMessages query context,
        m.role = "system" ∧ m.content = contextPrompt context) ↔ context ≠ "") ∧
    (chatMessages query context).getLast? = some ⟨"user", query⟩ ∧
    List.Pairwise
      (fun m₁ m₂ : ChatMessage => ¬(m₁.role = "user" ∧ m₂.role = "system"))
      (chatMessages query context) := by
  by_cases hc : context = ""
  · subst hc
    simp [chatMessages]
  · simp [chatMessages, hc]

theorem chat_completion_messages_witness :
    (∃ m ∈ chatMessages "What is RAG?" "Docs about RAG.",
        m.role = "system" ∧ m.content = contextPrompt "Docs about RAG.") ∧
    (chatMessages "What is RAG?" "").getLast? = some ⟨"user", "What is RAG?"⟩ := by
  refine ⟨(chat_completion_messages "What is RAG?" "Docs about RAG.").1.mpr
    (by simp), (chat_completion_messages "What is RAG?" "").2.1⟩

/-- C8: missing response fields are replaced by placeholders instead of
failing: a model entry without `id` is reported as "unknown" by
`list_models`, and a chunk without a `source` (whether the whole
`chunk_metadata` is missing or only its `source` field) or without a `score`
is reported as "unknown" and 0 respectively by `main`.  All reporting
functions are total, so no error can be raised for a missing field. -/
theorem missing_fields_defaults :
    (∀ m : ModelEntry, m.id = none → modelReportedId m = "unknown") ∧
    (∀ c : Chunk, c.chunk_metadata = none → chunkReportedSource c = "unknown") ∧
    (∀ (c : Chunk) (meta : ChunkMeta), c.chunk_metadata = some meta →
      meta.source = none → chunkReportedSource c = "unknown") ∧
    (∀ c : Chunk, c.score = none → chunkReportedScore c = 0) := by
  refine ⟨?_, ?_, ?_, ?_⟩
  · intro m hm
    simp [modelReportedId, hm]
  · intro c hc
    simp [chunkReportedSource, hc]
  · intro c meta hc hs
    simp [chunkReportedSource, hc, hs]
  · intro c hc
    simp [chunkReportedScore, hc]

theorem missing_fields_defaults_witness :
    modelReportedId ⟨none, some "llm"⟩ = "unknown" ∧
    chunkReportedSource ⟨none, some 1, some "text"⟩ = "unknown" ∧
    chunkReportedSource ⟨some ⟨none⟩, some 1, none⟩ = "unknown" ∧
    chunkReportedScore ⟨some ⟨some "doc"⟩, none, none⟩ = 0 := by
  obtain ⟨h1, h2, h3, h4⟩ := missing_fields_defaults
  exact ⟨h1 _ rfl, h2 _ rfl, h3 _ _ rfl rfl, h4 _ rfl⟩

/-- C9: none of the network-calling methods lets a failure escape: whatever
the service does (an exception anywhere inside the `try` block, an error
status, or a response whose parsing raises, modelled by a `none` body),
`list_models` and `generate_embeddings` return the empty list,
`create_vector_store` returns `none`, `insert_vectors` returns `false`, and
`chat_completion` returns the empty string.  Each model function is total,
so no exception propagates for any outcome. -/
theorem network_methods_no_raise :
    (list_models .exn = [] ∧
      (∀ s b, 400 ≤ s → list_models (.resp s b) = []) ∧
      (∀ s, list_models (.resp s none) = [])) ∧
    (generate_embeddings .exn = [] ∧
      (∀ s b, s ≠ 200 → generate_embeddings (.resp s b) = []) ∧
      (∀ s, generate_embeddings (.resp s none) = [])) ∧
    (create_vector_store .exn = none ∧
      (∀ s b, s ≠ 200 → s ≠ 201 → create_vector_store (.resp s b) = none) ∧
      (∀ s, create_vector_store (.resp s none) = none)) ∧
    (insert_vectors .exn = false ∧
      (∀ s b, s ≠ 200 → s ≠ 201 → insert_vectors (.resp s b) = false)) ∧
    (chat_completion .exn = "" ∧
      (∀ s b, s ≠ 200 → chat_completion (.resp s b) = "") ∧
      (∀ s, chat_completion (.resp s none) = "")) := by
  refine ⟨⟨rfl, ?_, ?_⟩, ⟨rfl, ?_, ?_⟩, ⟨rfl, ?_, ?_⟩, ⟨rfl, ?_⟩, ⟨rfl, ?_, ?_⟩⟩
  · intro s b hs
    simp [list_models, hs]
  · intro s
    by_cases hs : 400 ≤ s <;> simp [list_models, hs]
  · intro s b hs
    simp [generate_embeddings, hs]
  · intro s
    by_cases hs : s = 200 <;> simp [generate_embeddings, hs]
  · intro s b hs hs'
    simp [create_vector_store, hs, hs']
  · intro s
    by_cases hs : s = 200 ∨ s = 201 <;> simp [create_vector_store, hs]
  · intro s b hs hs'
    simp [insert_vectors, hs, hs']
  · intro s b hs
    simp [chat_completion, hs]
  · intro s
    by_cases hs : s = 200 <;> simp [chat_completion, hs]

theorem network_methods_no_raise_witness :
    list_models (.resp 500 none) = [] ∧
    generate_embeddings (.resp 404 none) = [] ∧
    create_vector_store (.resp 500 none) = none ∧
    insert_vectors (.resp 500 none) = false ∧
    chat_completion (.resp 500 none) = "" := by
  obtain ⟨hl, hg, hc, hi, hch⟩ := network_methods_no_raise
  exact ⟨hl.2.1 500 none (by norm_num), hg.2.1 404 none (by norm_num),
    hc.2.1 500 none (by norm_num) (by norm_num),
    hi.2 500 none (by norm_num) (by norm_num), hch.2.1 500 none (by norm_num)⟩

/-- C10 (counterexample): with keycloak_url "/" and non-empty username,
password and client secret, all four parameters are provided and non-empty,
yet the constructor does not attempt authentication: `rstrip('/')` turns "/"
into the empty string, which is falsy. -/
theorem auth_attempted_counterexample :
    ((some "/" : Option String) ≠ none ∧ "/" ≠ "" ∧
      (some "u" : Option String) ≠ none ∧ "u" ≠ "" ∧
      (some "p" : Option String) ≠ none ∧ "p" ≠ "" ∧
      (some "s" : Option String) ≠ none ∧ "s" ≠ "") ∧
    authAttempted (some "/") (some "u") (some "p") (some "s") = false := by
  refine ⟨⟨by simp, by simp, by simp, by simp, by simp, by simp, by simp,
    by simp⟩, ?_⟩
  rfl

/-- C10 (amended): the constructor attempts Keycloak authentication exactly
when username, password and client secret are provided and non-empty and the
keycloak url is provided and still non-empty after stripping trailing
slashes; and whenever authentication is not attempted, construction completes
(the model is total) with no Authorization header in the session. -/
theorem auth_attempted_iff (ku u p cse tok : Option String) :
    (authAttempted ku u p cse = true ↔
      ((∃ s, ku = some s ∧ rstripSlash s ≠ "") ∧
        (∃ s, u = some s ∧ s ≠ "") ∧
        (∃ s, p = some s ∧ s ≠ "") ∧
        (∃ s, cse = some s ∧ s ≠ ""))) ∧
    (authAttempted ku u p cse = false → initHeaders ku u p cse tok = []) := by
  constructor
  · have hku : truthy (initKeycloakUrl ku) = true ↔
        ∃ s, ku = some s ∧ rstripSlash s ≠ "" := by
      cases ku with
      | none => simp [initKeycloakUrl, truthy]
      | some v =>
        by_cases hv : v = ""
        · subst hv
          have hr : rstripSlash "" = "" := rfl
          simp [initKeycloakUrl, truthy, hr]
        · simp [initKeycloakUrl, truthy, hv]
    have hopt : ∀ o : Option String,
        truthy o = true ↔ ∃ s, o = some s ∧ s ≠ "" := by
      intro o
      cases o with
      | none => simp [truthy]
      | some v => simp [truthy]
    rw [authAttempted, Bool.and_eq_true, Bool.and_eq_true, Bool.and_eq_true,
      hku, hopt u, hopt p, hopt cse]
    tauto
  · intro h
    simp [initHeaders, h]

theorem auth_attempted_iff_witness :
    authAttempted (some "https://kc") (some "dev") (some "pw") (some "sec")
      = true ∧
    initHeaders none (some "dev") (some "pw") (some "sec") (some "tok") = [] := by
  refine ⟨(auth_attempted_iff (some "https://kc") (some "dev") (some "pw")
      (some "sec") none).1.mpr
    ⟨⟨"https://kc", rfl, by simp [rstripSlash]⟩, ⟨"dev", rfl, by simp⟩,
      ⟨"pw", rfl, by simp⟩, ⟨"sec", rfl, by simp⟩⟩, ?_⟩
  exact (auth_attempted_iff none (some "dev") (some "pw") (some "sec")
    (some "tok")).2 rfl
